import Mathlib

/-!
Traefik traffic-routing reconciler.

A shallow embedding of `rollout/trafficrouting/traefik/traefik.go`: the
Kubernetes `extensions/v1beta1` ingress types the package works on, Go's
`fmt.Sprintf` for the verbs the package uses, and the functions
`getServiceWeightsString`, `getDesiredAnnotations`, `getDesiredRules`,
`calculatePatch` and `Reconciler.Reconcile`.

Conventions.
* `int32` values are `Int`s; the functions here do no arithmetic on them.
* A Go `map[string]string` is `Option GoMap`: `none` is the nil map, `some m`
  an allocated map held as an association list read by first match.
* A Go slice is a `List` (nil and empty slices are not told apart; no function
  of the package distinguishes them).
* A runtime panic is an `Except.error` carrying a `Panic`.
* The effects of `Reconcile` (recorder events, client patch calls) are returned
  as a trace, in program order, next to the returned `error`.
-/

namespace Traefik

/-! ## Kubernetes types -/

/-- Go `intstr.Type`: which field of an `IntOrString` is in use. -/
inductive IntstrType where
  | Int
  | String
  deriving DecidableEq, Repr

/-- Go `intstr.IntOrString`; `Type_` is the Go field `Type`. -/
structure IntOrString where
  Type_ : IntstrType
  IntVal : Int
  StrVal : String
  deriving DecidableEq, Repr

/-- Go `intstr.FromInt`: an `IntOrString` holding the number `val`. -/
def FromInt (val : Int) : IntOrString :=
  { Type_ := IntstrType.Int, IntVal := val, StrVal := "" }

/-- Go `extensionsv1beta1.IngressBackend`. -/
structure IngressBackend where
  ServiceName : String
  ServicePort : IntOrString
  deriving DecidableEq, Repr

/-- Go `extensionsv1beta1.HTTPIngressPath`. -/
structure HTTPIngressPath where
  Path : String
  Backend : IngressBackend
  deriving DecidableEq, Repr

/-- Go `extensionsv1beta1.HTTPIngressRuleValue`. -/
structure HTTPIngressRuleValue where
  Paths : List HTTPIngressPath
  deriving DecidableEq, Repr

/-- Go `extensionsv1beta1.IngressRule`; the embedded `IngressRuleValue` holds the
one pointer `HTTP`, `none` when nil. -/
structure IngressRule where
  Host : String
  HTTP : Option HTTPIngressRuleValue
  deriving DecidableEq, Repr

/-- Go `extensionsv1beta1.IngressTLS`. -/
structure IngressTLS where
  Hosts : List String
  SecretName : String
  deriving DecidableEq, Repr

/-- An allocated Go `map[string]string`, as an association list. -/
abbrev GoMap := List (String × String)

/-- Map read `m[k]`, with the comma-ok result as an `Option`. -/
def GoMap.get (m : GoMap) (k : String) : Option String :=
  match m with
  | [] => none
  | (k', v) :: rest => if k' = k then some v else GoMap.get rest k

/-- Map write `m[k] = v`: the entry for `k` is overwritten where it is, or added. -/
def GoMap.set (m : GoMap) (k v : String) : GoMap :=
  match m with
  | [] => [(k, v)]
  | (k', v') :: rest => if k' = k then (k, v) :: rest else (k', v') :: GoMap.set rest k v

/-- Go `extensionsv1beta1.Ingress`, with the fields of `ObjectMeta`, `IngressSpec`
and `IngressStatus` that identify and describe the resource. -/
structure Ingress where
  Name : String
  Namespace : String
  ResourceVersion : String
  Labels : Option GoMap
  Annotations : Option GoMap
  Backend : Option IngressBackend
  TLS : List IngressTLS
  Rules : List IngressRule
  LoadBalancer : List String
  deriving DecidableEq, Repr

/-- Go `(*Ingress).DeepCopy`: a value equal to the receiver that shares no memory
with it. Values here are immutable, so the copy is the value itself. -/
def Ingress.DeepCopy (i : Ingress) : Ingress := i

/-- Go `(*HTTPIngressPath).DeepCopy`. -/
def HTTPIngressPath.DeepCopy (p : HTTPIngressPath) : HTTPIngressPath := p

/-! ## Go `fmt.Sprintf` -/

/-- An operand of `Sprintf`, tagged with its Go type. -/
inductive FmtArg where
  | string (s : String)
  | int32 (i : Int)
  deriving DecidableEq, Repr

/-- Decimal text of an integer, as Go `%d` prints it: digits, with a leading `-`
for a negative number. -/
def fmtInteger (i : Int) : List Char :=
  match i with
  | Int.ofNat n => Nat.toDigits 10 n
  | Int.negSucc n => '-' :: Nat.toDigits 10 (n + 1)

/-- Go reflect type name of an operand. -/
def FmtArg.typeName : FmtArg → List Char
  | FmtArg.string _ => "string".data
  | FmtArg.int32 _ => "int32".data

/-- Text of an operand under `%v`. -/
def FmtArg.value : FmtArg → List Char
  | FmtArg.string s => s.data
  | FmtArg.int32 i => fmtInteger i

/-- Go `(*pp).printArg` for the verbs `s`, `d` and `v`; any other pairing of verb
and operand is rendered as Go's bad-verb text `%!verb(type=value)`. -/
def printArg (arg : FmtArg) (verb : Char) : List Char :=
  match arg, verb with
  | FmtArg.string s, 's' => s.data
  | FmtArg.string s, 'v' => s.data
  | FmtArg.int32 i, 'd' => fmtInteger i
  | FmtArg.int32 i, 'v' => fmtInteger i
  | a, c => "%!".data ++ [c] ++ "(".data ++ a.typeName ++ "=".data ++ a.value ++ ")".data

/-- Text Go appends for operands the format did not use: `%!(EXTRA type=value, ...)`. -/
def extraArgs : List FmtArg → List Char
  | [] => []
  | a :: rest =>
    "%!(EXTRA ".data ++ a.typeName ++ "=".data ++ a.value
      ++ (rest.map (fun b => ", ".data ++ b.typeName ++ "=".data ++ b.value)).flatten
      ++ ")".data

/-- Go `(*pp).doPrintf` without flags, width, precision or argument indexes (the
package's format strings use none). Text is copied up to a `%`; a `%` that ends
the format prints `%!(NOVERB)` and stops; `%%` prints a percent sign; a verb with
no operand left prints `%!verb(MISSING)`; otherwise the next operand is printed
under the verb. Operands left over at the end are reported as `EXTRA`. -/
def doPrintf : List Char → List FmtArg → List Char
  | [], args => extraArgs args
  | ['%'], args => "%!(NOVERB)".data ++ extraArgs args
  | '%' :: '%' :: rest, args => '%' :: doPrintf rest args
  | '%' :: c :: rest, [] => "%!".data ++ [c] ++ "(MISSING)".data ++ doPrintf rest []
  | '%' :: c :: rest, a :: args => printArg a c ++ doPrintf rest args
  | c :: rest, args => c :: doPrintf rest args

/-- Go `fmt.Sprintf`. -/
def Sprintf (format : String) (a : List FmtArg) : String :=
  String.mk (doPrintf format.data a)

/-! ## The package -/

/-- Go `getServiceWeightsString`: the raw-string format is a bar, a newline, and
`%s: %d%`, whose last `%` has no verb after it. -/
def getServiceWeightsString (canaryService : String) (desiredWeight : Int) : String :=
  let s := "|\n%s: %d%"
  Sprintf s [FmtArg.string canaryService, FmtArg.int32 desiredWeight]

/-- A Go runtime panic. -/
inductive Panic where
  | assignmentToEntryInNilMap
  deriving DecidableEq, Repr

/-- Modelled from the spec: `v1alpha1.TraefikTrafficRouting` is declared in
`pkg/apis/rollouts/v1alpha1`, outside the sources; these are the fields the
package and its tests read (routing-resource name, canary port, optional
override service name). -/
structure TraefikTrafficRouting where
  Ingress : String
  ServicePort : Int
  RootService : String
  deriving DecidableEq, Repr

/-- Modelled from the spec: `v1alpha1.Rollout` is declared outside the sources;
the chain `Spec.Strategy.Canary.TrafficRouting.Traefik` is flattened and its
pointers are taken to be non-nil, as `fakeRollout` builds them. -/
structure Rollout where
  Name : String
  Namespace : String
  StableService : String
  CanaryService : String
  Traefik : TraefikTrafficRouting
  deriving DecidableEq, Repr

/-- Modelled from the spec: package `utils/ingress` is outside the sources.
`TraefikServiceWeightsKey` is the fixed, controller-scoped annotation key that
holds the weights; its text is not known here, so it is a parameter. -/
structure IngressUtil where
  TraefikServiceWeightsKey : Rollout → String

/-- Modelled from the spec: `ingressutil.HasRuleWithService` is outside the
sources. It scans the path backends of all rules for an exact service-name match. -/
def HasRuleWithService (ingress : Ingress) (svc : String) : Bool :=
  ingress.Rules.any fun rule =>
    match rule.HTTP with
    | none => false
    | some http => http.Paths.any fun path => decide (path.Backend.ServiceName = svc)

/-- Go `getDesiredAnnotations`. The write `desired[key] = ...` panics when the
copied map is nil. The Go `error` result is always nil and is left out. -/
def getDesiredAnnotations (ingressutil : IngressUtil) (current : Ingress) (r : Rollout)
    (desiredWeight : Int) : Except Panic (Option GoMap) :=
  let canaryService := r.CanaryService
  let desired := current.DeepCopy.Annotations
  let key := ingressutil.TraefikServiceWeightsKey r
  match desired with
  | none => Except.error Panic.assignmentToEntryInNilMap
  | some m => Except.ok (some (m.set key (getServiceWeightsString canaryService desiredWeight)))

/-- The assignment `desired[ruleIndex].HTTP.Paths = paths`. `desired` is a deep
copy of the rules being ranged over, so the index is in range and the `HTTP`
pointer is non-nil wherever the assignment is reached. -/
def assignPaths (desired : List IngressRule) (ruleIndex : Nat) (paths : List HTTPIngressPath) :
    List IngressRule :=
  match desired, ruleIndex with
  | [], _ => []
  | d :: rest, 0 =>
    { d with HTTP := match d.HTTP with
                     | some _ => some { Paths := paths }
                     | none => none } :: rest
  | d :: rest, n + 1 => d :: assignPaths rest n paths

/-- The body of the inner loop of `getDesiredRules` for one `path` of `rule`
(`paths` is `rule.HTTP.Paths`, which the loop never changes). -/
def pathStep (actionService canaryService : String) (port : Int) (ruleIndex : Nat)
    (paths : List HTTPIngressPath) (desired : List IngressRule) (path : HTTPIngressPath) :
    List IngressRule :=
  if path.Backend.ServiceName = actionService then
    let portStr := FromInt port
    let canaryPath := path.DeepCopy
    let canaryPath := { canaryPath with Backend := { canaryPath.Backend with ServiceName := canaryService } }
    let canaryPath := { canaryPath with Backend := { canaryPath.Backend with ServicePort := portStr } }
    assignPaths desired ruleIndex (paths ++ [canaryPath])
  else desired

/-- The body of the outer loop of `getDesiredRules` for one rule. -/
def ruleStep (actionService canaryService : String) (port : Int)
    (desired : List IngressRule) (entry : Nat × IngressRule) : List IngressRule :=
  match entry.2.HTTP with
  | some http => http.Paths.foldl (pathStep actionService canaryService port entry.1 http.Paths) desired
  | none => desired

/-- Go `getDesiredRules`: both loops range over the rules of `current` while the
result is assembled in `desired`. The Go `error` result is always nil and is
left out. -/
def getDesiredRules (current : Ingress) (actionService canaryService : String) (port : Int) :
    List IngressRule :=
  let desired := current.DeepCopy.Rules
  current.Rules.enum.foldl (ruleStep actionService canaryService port) desired

/-! ## Errors, the lister and the client -/

/-- Go `metav1.StatusReason`, for the reasons the claims tell apart. -/
inductive StatusReason where
  | NotFound
  | Conflict
  | Unknown
  deriving DecidableEq, Repr

/-- A Go `error` value: an API status error (`k8serrors.StatusError`) or a plain
text error as `fmt.Errorf` builds it. -/
inductive GoError where
  | StatusError (reason : StatusReason) (message : String)
  | errorString (s : String)
  deriving DecidableEq, Repr

/-- Go `err.Error()`. -/
def GoError.Error : GoError → String
  | GoError.StatusError _ message => message
  | GoError.errorString s => s

/-- Go `k8serrors.IsNotFound`: the error is a status error whose reason is NotFound. -/
def IsNotFound (err : GoError) : Bool :=
  match err with
  | GoError.StatusError StatusReason.NotFound _ => true
  | _ => false

/-- Go `k8serrors.NewNotFound` for a resource kind and a name. -/
def NewNotFound (resource name : String) : GoError :=
  GoError.StatusError StatusReason.NotFound (resource ++ " \"" ++ name ++ "\" not found")

/-- Go `fmt.Errorf` (the formats of the package hold no `%w`). -/
def Errorf (format : String) (a : List FmtArg) : GoError :=
  GoError.errorString (Sprintf format a)

/-- The read accessor `IngressLister.Ingresses(namespace).Get(name)`. -/
abbrev IngressLister := String → String → Except GoError Ingress

/-- The lister client-go generates over an indexer: the stored resource with
that namespace and name, or a NotFound status error. -/
def indexerLister (indexer : List Ingress) : IngressLister :=
  fun ns name =>
    match indexer.find? (fun i => decide (i.Namespace = ns ∧ i.Name = name)) with
    | some i => Except.ok i
    | none => Except.error (NewNotFound "ingress.extensions" name)

/-- Go `types.PatchType`. -/
inductive PatchType where
  | JSONPatchType
  | MergePatchType
  | StrategicMergePatchType
  deriving DecidableEq, Repr

/-- A merge-patch document over an `Ingress`: for each field the value to
overlay, `none` where the document does not name the field. -/
structure MergePatch where
  Name : Option String
  Namespace : Option String
  ResourceVersion : Option String
  Labels : Option (Option GoMap)
  Annotations : Option (Option GoMap)
  Backend : Option (Option IngressBackend)
  TLS : Option (List IngressTLS)
  Rules : Option (List IngressRule)
  LoadBalancer : Option (List String)
  deriving DecidableEq, Repr

/-- The write accessor `Client.ExtensionsV1beta1().Ingresses(namespace).Patch(name,
patchType, data)`: the error the API server answers with, `none` on success. -/
abbrev Client := String → String → PatchType → MergePatch → Option GoError

/-- What a call of `Reconcile` does to its collaborators. -/
inductive Action where
  | Event (eventtype reason message : String)
  | Patch (ns name : String) (pt : PatchType) (data : MergePatch)
  deriving DecidableEq, Repr

/-- Whether an action is a patch write. -/
def Action.isPatch : Action → Bool
  | Action.Patch _ _ _ _ => true
  | Action.Event _ _ _ => false

/-- Whether an action is a recorder event. -/
def Action.isEvent : Action → Bool
  | Action.Event _ _ _ => true
  | Action.Patch _ _ _ _ => false

/-! ## Diff -/

/-- The entries of a Go map; a nil map reads as a map without entries. -/
def entries (m : Option GoMap) : GoMap := m.getD []

/-- One map holds every key of the other with the same value. -/
def mapIncluded (a b : GoMap) : Bool :=
  a.all fun kv => decide (GoMap.get b kv.1 = GoMap.get a kv.1)

/-- Map equality, key order ignored. -/
def mapEqual (a b : Option GoMap) : Bool :=
  mapIncluded (entries a) (entries b) && mapIncluded (entries b) (entries a)

/-- The overlay for a field: the new value where it differs from the old. -/
def overlay {α : Type} (same : Bool) (new : α) : Option α :=
  if same then none else some new

/-- The merge patch naming no field (`{}`). -/
def emptyPatch : MergePatch :=
  { Name := none, Namespace := none, ResourceVersion := none, Labels := none,
    Annotations := none, Backend := none, TLS := none, Rules := none, LoadBalancer := none }

/-- Modelled from the spec: `diff.CreateTwoWayMergePatch` (package `utils/diff`)
is outside the sources. It computes a structural merge-style diff of two
resources: the patch names exactly the fields in which `new` differs from
`orig` (maps compared ignoring key order, sequences including order) and
carries the new value of each, and `changed` is false when the two are
field-for-field equal. The Go `error` result is left out. -/
def CreateTwoWayMergePatch (orig new : Ingress) : MergePatch × Bool :=
  let patch : MergePatch :=
    { Name := overlay (decide (orig.Name = new.Name)) new.Name
      Namespace := overlay (decide (orig.Namespace = new.Namespace)) new.Namespace
      ResourceVersion := overlay (decide (orig.ResourceVersion = new.ResourceVersion)) new.ResourceVersion
      Labels := overlay (mapEqual orig.Labels new.Labels) new.Labels
      Annotations := overlay (mapEqual orig.Annotations new.Annotations) new.Annotations
      Backend := overlay (decide (orig.Backend = new.Backend)) new.Backend
      TLS := overlay (decide (orig.TLS = new.TLS)) new.TLS
      Rules := overlay (decide (orig.Rules = new.Rules)) new.Rules
      LoadBalancer := overlay (decide (orig.LoadBalancer = new.LoadBalancer)) new.LoadBalancer }
  (patch, decide (patch ≠ emptyPatch))

/-- The zero value of `extensionsv1beta1.Ingress`. -/
def zeroIngress : Ingress :=
  { Name := "", Namespace := "", ResourceVersion := "", Labels := none, Annotations := none,
    Backend := none, TLS := [], Rules := [], LoadBalancer := [] }

/-- Go `calculatePatch`: the diff of two resources that carry only the
annotations and the rules. -/
def calculatePatch (current : Ingress) (desiredAnnotations : Option GoMap)
    (desiredRules : List IngressRule) : MergePatch × Bool :=
  CreateTwoWayMergePatch
    { zeroIngress with Annotations := current.Annotations, Rules := current.Rules }
    { zeroIngress with Annotations := desiredAnnotations, Rules := desiredRules }

/-- Modelled from the spec: the store applies a merge patch by overlaying the
fields the document names onto the stored resource. -/
def applyMergePatch (i : Ingress) (p : MergePatch) : Ingress :=
  { Name := p.Name.getD i.Name
    Namespace := p.Namespace.getD i.Namespace
    ResourceVersion := p.ResourceVersion.getD i.ResourceVersion
    Labels := p.Labels.getD i.Labels
    Annotations := p.Annotations.getD i.Annotations
    Backend := p.Backend.getD i.Backend
    TLS := p.TLS.getD i.TLS
    Rules := p.Rules.getD i.Rules
    LoadBalancer := p.LoadBalancer.getD i.LoadBalancer }

/-! ## The reconciler -/

/-- Go `ReconcilerConfig`, with the collaborators that `Reconcile` calls. The
recorder has no field: its events are part of the returned trace. -/
structure ReconcilerConfig where
  Rollout : Rollout
  Client : Client
  IngressLister : IngressLister
  ingressutil : IngressUtil

/-- Go `Reconciler` (the logger is left out). -/
structure Reconciler where
  cfg : ReconcilerConfig

/-- The outcome of a call of `Reconcile` that did not panic: the actions taken
on the recorder and the client, in order, and the returned `error` (`none` is nil). -/
structure Run where
  actions : List Action
  err : Option GoError
  deriving DecidableEq, Repr

/-- Go `corev1.EventTypeNormal`. -/
def EventTypeNormal : String := "Normal"

/-- Go `(*Reconciler).Reconcile`. -/
def Reconciler.Reconcile (r : Reconciler) (desiredWeight : Int) : Except Panic Run :=
  let rollout := r.cfg.Rollout
  let ingressName := r.cfg.Rollout.Traefik.Ingress
  match r.cfg.IngressLister rollout.Namespace ingressName with
  | Except.error err => Except.ok { actions := [], err := some err }
  | Except.ok ingress =>
    let actionService :=
      if r.cfg.Rollout.Traefik.RootService ≠ "" then r.cfg.Rollout.Traefik.RootService
      else r.cfg.Rollout.StableService
    let canaryService := r.cfg.Rollout.CanaryService
    let port := r.cfg.Rollout.Traefik.ServicePort
    if !HasRuleWithService ingress actionService then
      Except.ok { actions := [],
                  err := some (Errorf "ingress does not have service `%s` in rules"
                    [FmtArg.string actionService]) }
    else
      match getDesiredAnnotations r.cfg.ingressutil ingress rollout desiredWeight with
      | Except.error p => Except.error p
      | Except.ok desiredAnnotations =>
        let desiredRules := getDesiredRules ingress actionService canaryService port
        let (patch, modified) := calculatePatch ingress desiredAnnotations desiredRules
        if !modified then
          Except.ok { actions := [], err := none }
        else
          let event := Action.Event EventTypeNormal "PatchingTraefikIngress"
            (Sprintf "Updating Ingress `%s` to desiredWeight \x27%d\x27"
              [FmtArg.string ingressName, FmtArg.int32 desiredWeight])
          let write := Action.Patch ingress.Namespace ingress.Name PatchType.MergePatchType patch
          match r.cfg.Client ingress.Namespace ingress.Name PatchType.MergePatchType patch with
          | some err =>
            Except.ok { actions := [event, write],
                        err := some (Errorf "error patching traefik ingress `%s`: %v"
                          [FmtArg.string ingressName, FmtArg.string err.Error]) }
          | none => Except.ok { actions := [event, write], err := none }

/-! ## Characterisations used in the statements -/

/-- The canary sibling of a path: the path with its backend pointed at the
canary service and the numeric canary port. -/
def canaryOf (canaryService : String) (port : Int) (p : HTTPIngressPath) : HTTPIngressPath :=
  { Path := p.Path, Backend := { ServiceName := canaryService, ServicePort := FromInt port } }

/-- The last path of a list, in order, whose backend service is `actionService`. -/
def lastMatch (actionService : String) : List HTTPIngressPath → Option HTTPIngressPath
  | [] => none
  | p :: ps =>
    match lastMatch actionService ps with
    | some q => some q
    | none => if p.Backend.ServiceName = actionService then some p else none

/-- The rule `getDesiredRules` returns in the place of `rule`. -/
def desiredRule (actionService canaryService : String) (port : Int) (rule : IngressRule) :
    IngressRule :=
  match rule.HTTP with
  | none => rule
  | some http =>
    match lastMatch actionService http.Paths with
    | none => rule
    | some p => { rule with HTTP := some { Paths := http.Paths ++ [canaryOf canaryService port p] } }

/-- The event `Reconcile` records before it patches. -/
def patchingEvent (ingressName : String) (desiredWeight : Int) : Action :=
  Action.Event EventTypeNormal "PatchingTraefikIngress"
    (Sprintf "Updating Ingress `%s` to desiredWeight \x27%d\x27"
      [FmtArg.string ingressName, FmtArg.int32 desiredWeight])

/-- The action service `Reconcile` works with. -/
def actionServiceOf (ro : Rollout) : String :=
  if ro.Traefik.RootService ≠ "" then ro.Traefik.RootService else ro.StableService

/-- The patch `Reconcile` computes for a resource whose annotation map is `A`. -/
def desiredPatch (u : IngressUtil) (ro : Rollout) (ingress : Ingress) (A : GoMap) (w : Int) :
    MergePatch :=
  (calculatePatch ingress
    (some (A.set (u.TraefikServiceWeightsKey ro) (getServiceWeightsString ro.CanaryService w)))
    (getDesiredRules ingress (actionServiceOf ro) ro.CanaryService ro.Traefik.ServicePort)).1

/-! ## Fixtures of `traefik_test.go` and of the worked examples -/

/-- The annotation key Traefik reads service weights from, as a sample value for
the key parameter. -/
def sampleUtil : IngressUtil :=
  { TraefikServiceWeightsKey := fun _ => "traefik.ingress.kubernetes.io/service-weights" }

/-- Test helper `fakeRollout`. -/
def fakeRollout (stableSvc canarySvc stableIng : String) (port : Int) : Rollout :=
  { Name := "rollout", Namespace := "default", StableService := stableSvc,
    CanaryService := canarySvc,
    Traefik := { Ingress := stableIng, ServicePort := port, RootService := "" } }

/-- Test helper `ingress`; `weightKey` stands for `traefikWeightAnnotation()`. -/
def ingress (weightKey name stableSvc canarySvc : String) (port weight : Int) : Ingress :=
  { zeroIngress with
    Name := name
    Namespace := "default"
    Annotations := some [(weightKey, getServiceWeightsString canarySvc weight)]
    Rules := [{ Host := "",
                HTTP := some { Paths := [{ Path := "",
                                           Backend := { ServiceName := stableSvc,
                                                        ServicePort := FromInt port } }] } }] }

/-- A path with an empty path string to `svc` at the numeric port `port`. -/
def pathTo (svc : String) (port : Int) : HTTPIngressPath :=
  { Path := "", Backend := { ServiceName := svc, ServicePort := FromInt port } }

/-- A rule without host over the given paths. -/
def ruleOf (paths : List HTTPIngressPath) : IngressRule :=
  { Host := "", HTTP := some { Paths := paths } }

/-- A resource with the given rules and an empty, allocated annotation map. -/
def ingressOf (rules : List IngressRule) : Ingress :=
  { zeroIngress with Name := "ingress", Namespace := "default", Annotations := some [],
                     Rules := rules }

/-- A client whose API server accepts every patch. -/
def acceptingClient : Client := fun _ _ _ _ => none

/-- A client over a store without resources, as `fake.NewSimpleClientset()` of
the tests: every patch is answered with NotFound. -/
def emptyClient : Client :=
  fun _ name _ _ => some (NewNotFound "ingresses.extensions" name)

/-- The patch writes among the actions of a run. -/
def Run.patchWrites (run : Run) : List Action :=
  run.actions.filter Action.isPatch

/-- Modelled from the spec: the store applies each patch write of a run to the
stored resource the write addresses, by namespace and name. -/
def applyWrites (store : List Ingress) (actions : List Action) : List Ingress :=
  actions.foldl
    (fun st a =>
      match a with
      | Action.Patch ns name _ data =>
        st.map fun i => if i.Namespace = ns ∧ i.Name = name then applyMergePatch i data else i
      | Action.Event _ _ _ => st)
    store

/-- A reconciler whose lister reads `store` and whose client accepts every patch. -/
def storeReconciler (u : IngressUtil) (ro : Rollout) (store : List Ingress) : Reconciler :=
  { cfg := { Rollout := ro, Client := acceptingClient, IngressLister := indexerLister store,
             ingressutil := u } }

/-- A desired rule extends a rule: the host is the same, the HTTP section is
present in both or in neither, and the paths of the rule begin the paths of the
desired rule. -/
def ruleExtends (rule rule' : IngressRule) : Prop :=
  rule'.Host = rule.Host ∧
    match rule.HTTP, rule'.HTTP with
    | none, none => True
    | some http, some http' => http.Paths <+: http'.Paths
    | _, _ => False

/-- The paths of a rule whose backend is the given service at the given numeric port. -/
def pathsTo (svc : String) (port : Int) (rule : IngressRule) : List HTTPIngressPath :=
  match rule.HTTP with
  | none => []
  | some http => http.Paths.filter fun p => decide (p.Backend = { ServiceName := svc, ServicePort := FromInt port })

/-- The resource of the end-to-end scenario: the test ingress, routing to
`stable-svc` only, with the weights annotation at 0. -/
def stableOnly : Ingress :=
  ingress "traefik.ingress.kubernetes.io/service-weights" "ingress" "stable-svc" "canary-svc" 443 0

/-- The resource of `TestNoChanges`: the weights annotation is already at 10. -/
def noChangesIngress : Ingress :=
  ingress "traefik.ingress.kubernetes.io/service-weights" "ingress" "stable-svc" "canary-svc" 443 10

/-- A path with a path string. -/
def pathAt (path svc : String) (port : Int) : HTTPIngressPath :=
  { Path := path, Backend := { ServiceName := svc, ServicePort := FromInt port } }

/-- The events among the actions of a run. -/
def Run.events (run : Run) : List Action :=
  run.actions.filter Action.isEvent

/-- The resource routing to `stable-svc` only, carrying no annotations at all:
its annotation map is nil. -/
def noAnnotations : Ingress :=
  { stableOnly with Annotations := none }

/-- The number a list of decimal digit characters denotes, read from the left
onto `acc`. -/
def digitsValue (acc : Nat) (ds : List Char) : Nat :=
  ds.foldl (fun a c => a * 10 + (c.toNat - 48)) acc

/-! ## Maps in memory

Go maps are reference values: a map variable is nil or points to an allocated
map, and a write through one variable is seen through every variable that
points to the same map. The definitions below follow `getDesiredAnnotations` at
that level, to tell the map of the current resource from the map of its copy. -/

/-- A Go map variable: nil, or the address of an allocated map. -/
abbrev MapRef := Option Nat

/-- The allocated maps of a program state, by address. -/
abbrev Mem := List GoMap

/-- The map a variable holds: `none` for nil. -/
def readMap (mem : Mem) (ref : MapRef) : Option GoMap :=
  match ref with
  | none => none
  | some a => mem[a]?

/-- The deep copy of a map field, as the generated `DeepCopyInto` does it: nil
stays nil, and a map is copied entry by entry into a newly made map. -/
def copyMap (mem : Mem) (ref : MapRef) : MapRef × Mem :=
  match readMap mem ref with
  | none => (none, mem)
  | some m => (some mem.length, mem ++ [m])

/-- The assignment `m[k] = v` through a map variable: a panic on nil, otherwise
a write into the map the variable points to. -/
def assignMap (mem : Mem) (ref : MapRef) (k v : String) : Except Panic Mem :=
  match ref with
  | none => Except.error Panic.assignmentToEntryInNilMap
  | some a =>
    match mem[a]? with
    | some m => Except.ok (mem.set a (m.set k v))
    | none => Except.ok mem

/-- The object a `*extensionsv1beta1.Ingress` points to: as `Ingress`, with the
two map fields held by reference. -/
structure IngressPtr where
  Name : String
  Namespace : String
  ResourceVersion : String
  Labels : MapRef
  Annotations : MapRef
  Backend : Option IngressBackend
  TLS : List IngressTLS
  Rules : List IngressRule
  LoadBalancer : List String
  deriving DecidableEq, Repr

/-- The value of the object in a program state. -/
def IngressPtr.load (p : IngressPtr) (mem : Mem) : Ingress :=
  { Name := p.Name, Namespace := p.Namespace, ResourceVersion := p.ResourceVersion,
    Labels := readMap mem p.Labels, Annotations := readMap mem p.Annotations,
    Backend := p.Backend, TLS := p.TLS, Rules := p.Rules, LoadBalancer := p.LoadBalancer }

/-- Go `(*Ingress).DeepCopy` in memory: the labels and then the annotations are
copied into new maps. -/
def IngressPtr.DeepCopy (p : IngressPtr) (mem : Mem) : IngressPtr × Mem :=
  let labels := copyMap mem p.Labels
  let annotations := copyMap labels.2 p.Annotations
  ({ p with Labels := labels.1, Annotations := annotations.1 }, annotations.2)

/-- Go `getDesiredAnnotations` in memory: the returned map variable and the
program state after the call. -/
def getDesiredAnnotationsMem (ingressutil : IngressUtil) (mem : Mem) (current : IngressPtr)
    (r : Rollout) (desiredWeight : Int) : Except Panic (MapRef × Mem) :=
  let canaryService := r.CanaryService
  let copy := current.DeepCopy mem
  let desired := copy.1.Annotations
  let key := ingressutil.TraefikServiceWeightsKey r
  match assignMap copy.2 desired key (getServiceWeightsString canaryService desiredWeight) with
  | Except.error p => Except.error p
  | Except.ok mem' => Except.ok (desired, mem')

/-! # Theorems -/

/-! ## What `getDesiredRules` computes: proofs -/

theorem assignPaths_assignPaths (d : List IngressRule) (i : Nat) (a b : List HTTPIngressPath) :
    assignPaths (assignPaths d i a) i b = assignPaths d i b := by
  induction d generalizing i with
  | nil => cases i <;> rfl
  | cons r rs ih =>
    cases i with
    | zero =>
      cases h : r.HTTP <;> simp [assignPaths, h]
    | succ n => simp [assignPaths, ih]

theorem assignPaths_append (pre rs : List IngressRule) (r : IngressRule)
    (http : HTTPIngressRuleValue) (h : r.HTTP = some http) (ps : List HTTPIngressPath) :
    assignPaths (pre ++ r :: rs) pre.length ps
      = pre ++ { r with HTTP := some { Paths := ps } } :: rs := by
  induction pre with
  | nil => simp [assignPaths, h]
  | cons q qs ih => simp [assignPaths, ih]

theorem foldl_pathStep (a c : String) (port : Int) (i : Nat) (paths ps : List HTTPIngressPath)
    (d : List IngressRule) :
    ps.foldl (pathStep a c port i paths) d
      = match lastMatch a ps with
        | none => d
        | some p => assignPaths d i (paths ++ [canaryOf c port p]) := by
  induction ps generalizing d with
  | nil => rfl
  | cons p ps ih =>
    rw [List.foldl_cons, ih]
    cases hl : lastMatch a ps with
    | some q =>
      simp only [lastMatch, hl]
      by_cases hp : p.Backend.ServiceName = a
      · simp only [pathStep, hp, if_true, assignPaths_assignPaths]
      · simp only [pathStep, hp, if_false]
    | none =>
      simp only [lastMatch, hl]
      by_cases hp : p.Backend.ServiceName = a
      · simp [pathStep, hp, canaryOf, HTTPIngressPath.DeepCopy]
      · simp [pathStep, hp]

theorem ruleStep_append (a c : String) (port : Int) (pre rs : List IngressRule) (r : IngressRule) :
    ruleStep a c port (pre ++ r :: rs) (pre.length, r)
      = pre ++ desiredRule a c port r :: rs := by
  unfold ruleStep desiredRule
  cases h : r.HTTP with
  | none => simp
  | some http =>
    simp only [foldl_pathStep]
    cases hl : lastMatch a http.Paths with
    | none => simp
    | some p => simp [assignPaths_append pre rs r http h]

theorem foldl_ruleStep (a c : String) (port : Int) (rs pre : List IngressRule) :
    (rs.enumFrom pre.length).foldl (ruleStep a c port) (pre ++ rs)
      = pre ++ rs.map (desiredRule a c port) := by
  induction rs generalizing pre with
  | nil => simp
  | cons r rs ih =>
    rw [List.enumFrom_cons, List.foldl_cons, ruleStep_append]
    have := ih (pre ++ [desiredRule a c port r])
    simp only [List.length_append, List.length_singleton, List.append_assoc,
      List.singleton_append] at this
    simpa using this

/-- The result of `getDesiredRules`, rule by rule. -/
theorem getDesiredRules_eq_map (current : Ingress) (a c : String) (port : Int) :
    getDesiredRules current a c port = current.Rules.map (desiredRule a c port) := by
  have := foldl_ruleStep a c port current.Rules []
  simpa [getDesiredRules, List.enum, Ingress.DeepCopy] using this

theorem lastMatch_eq_getLast? (a : String) (ps : List HTTPIngressPath) :
    lastMatch a ps = (ps.filter (fun q => decide (q.Backend.ServiceName = a))).getLast? := by
  induction ps with
  | nil => rfl
  | cons p ps ih =>
    simp only [lastMatch, ih, List.filter_cons]
    by_cases hp : p.Backend.ServiceName = a
    · simp only [hp, decide_True, if_true]
      cases hf : ps.filter (fun q => decide (q.Backend.ServiceName = a)) with
      | nil => rfl
      | cons x xs =>
        rw [List.getLast?_cons_cons, List.getLast?_eq_getLast (x :: xs) (by simp)]
    · simp only [hp, decide_False, if_false, Bool.false_eq_true]
      generalize (ps.filter (fun q => decide (q.Backend.ServiceName = a))).getLast? = o
      cases o <;> rfl

theorem lastMatch_eq_none (a : String) (ps : List HTTPIngressPath)
    (h : ∀ q ∈ ps, q.Backend.ServiceName ≠ a) : lastMatch a ps = none := by
  rw [lastMatch_eq_getLast?, List.filter_eq_nil_iff.mpr]
  · rfl
  · intro q hq
    simpa using h q hq

theorem lastMatch_isSome (a : String) (ps : List HTTPIngressPath)
    (h : ps.any (fun path => decide (path.Backend.ServiceName = a)) = true) :
    ∃ p, lastMatch a ps = some p := by
  induction ps with
  | nil => simp at h
  | cons p ps ih =>
    simp only [lastMatch]
    cases hl : lastMatch a ps with
    | some q => exact ⟨q, rfl⟩
    | none =>
      by_cases hp : p.Backend.ServiceName = a
      · exact ⟨p, by simp [hp]⟩
      · simp only [List.any_cons, hp, decide_False, Bool.false_or] at h
        obtain ⟨q, hq⟩ := ih h
        rw [hl] at hq
        cases hq

theorem desiredRule_ne_of_match (a c : String) (port : Int) (rule : IngressRule)
    (http : HTTPIngressRuleValue) (h : rule.HTTP = some http)
    (hm : http.Paths.any (fun path => decide (path.Backend.ServiceName = a)) = true) :
    desiredRule a c port rule ≠ rule := by
  obtain ⟨p, hp⟩ := lastMatch_isSome a http.Paths hm
  intro heq
  have h2 : (desiredRule a c port rule).HTTP = some http := by rw [heq, h]
  simp only [desiredRule, h, hp, Option.some.injEq] at h2
  have h3 := congrArg (fun x => x.Paths.length) h2
  simp at h3

theorem map_ne_of_mem {α : Type} (f : α → α) (l : List α) (x : α) (hx : x ∈ l) (hne : f x ≠ x) :
    l.map f ≠ l := by
  induction l with
  | nil => cases hx
  | cons y ys ih =>
    intro heq
    simp only [List.map_cons, List.cons.injEq] at heq
    rcases List.mem_cons.mp hx with rfl | hmem
    · exact hne heq.1
    · exact ih hmem heq.2

/-- A resource that routes to the action service never has its desired rules
equal to its rules: a canary path is added each time. -/
theorem getDesiredRules_ne (current : Ingress) (a c : String) (port : Int)
    (h : HasRuleWithService current a = true) :
    getDesiredRules current a c port ≠ current.Rules := by
  rw [getDesiredRules_eq_map]
  simp only [HasRuleWithService, List.any_eq_true] at h
  obtain ⟨rule, hmem, hrule⟩ := h
  cases hh : rule.HTTP with
  | none => simp [hh] at hrule
  | some http =>
    simp only [hh] at hrule
    have hrule2 : http.Paths.any (fun path => decide (path.Backend.ServiceName = a)) = true := by
      simpa [List.any_eq_true] using hrule
    exact map_ne_of_mem _ _ rule hmem (desiredRule_ne_of_match a c port rule http hh hrule2)

theorem calculatePatch_changed_of_rules_ne (current : Ingress) (da : Option GoMap)
    (dr : List IngressRule) (h : dr ≠ current.Rules) :
    (calculatePatch current da dr).2 = true := by
  simp only [calculatePatch, CreateTwoWayMergePatch, decide_eq_true_eq]
  intro heq
  have h2 := congrArg MergePatch.Rules heq
  simp only [overlay, emptyPatch] at h2
  by_cases hr : current.Rules = dr
  · exact h hr.symm
  · simp [zeroIngress, hr] at h2

/-- Every call of `Reconcile` that reads a resource routing to the action
service, with an allocated annotation map, records the event and writes a
patch: the branch for an unmodified resource is never taken. -/
theorem Reconcile_routed (r : Reconciler) (w : Int) (ingress : Ingress) (A : GoMap)
    (hget : r.cfg.IngressLister r.cfg.Rollout.Namespace r.cfg.Rollout.Traefik.Ingress
      = Except.ok ingress)
    (hsvc : HasRuleWithService ingress (actionServiceOf r.cfg.Rollout) = true)
    (hann : ingress.Annotations = some A) :
    r.Reconcile w = Except.ok
      { actions := [patchingEvent r.cfg.Rollout.Traefik.Ingress w,
                    Action.Patch ingress.Namespace ingress.Name PatchType.MergePatchType
                      (desiredPatch r.cfg.ingressutil r.cfg.Rollout ingress A w)],
        err := (r.cfg.Client ingress.Namespace ingress.Name PatchType.MergePatchType
                  (desiredPatch r.cfg.ingressutil r.cfg.Rollout ingress A w)).map
                (fun e => Errorf "error patching traefik ingress `%s`: %v"
                  [FmtArg.string r.cfg.Rollout.Traefik.Ingress, FmtArg.string e.Error]) } := by
  have hne := getDesiredRules_ne ingress (actionServiceOf r.cfg.Rollout)
    r.cfg.Rollout.CanaryService r.cfg.Rollout.Traefik.ServicePort hsvc
  have hmod := calculatePatch_changed_of_rules_ne ingress
    (some (A.set (r.cfg.ingressutil.TraefikServiceWeightsKey r.cfg.Rollout)
      (getServiceWeightsString r.cfg.Rollout.CanaryService w))) _ hne
  simp only [actionServiceOf] at hsvc hne hmod
  simp only [Reconciler.Reconcile, hget, hsvc, getDesiredAnnotations, Ingress.DeepCopy, hann,
    hmod, patchingEvent, desiredPatch, actionServiceOf]
  cases r.cfg.Client ingress.Namespace ingress.Name PatchType.MergePatchType
      (calculatePatch ingress
        (some (A.set (r.cfg.ingressutil.TraefikServiceWeightsKey r.cfg.Rollout)
          (getServiceWeightsString r.cfg.Rollout.CanaryService w)))
        (getDesiredRules ingress
          (if r.cfg.Rollout.Traefik.RootService ≠ "" then r.cfg.Rollout.Traefik.RootService
           else r.cfg.Rollout.StableService)
          r.cfg.Rollout.CanaryService r.cfg.Rollout.Traefik.ServicePort)).1 <;> rfl

/-- The patch of `Reconcile_routed` names the rules, with the desired rules. -/
theorem desiredPatch_Rules (u : IngressUtil) (ro : Rollout) (ingress : Ingress) (A : GoMap)
    (w : Int) (hsvc : HasRuleWithService ingress (actionServiceOf ro) = true) :
    (desiredPatch u ro ingress A w).Rules
      = some (getDesiredRules ingress (actionServiceOf ro) ro.CanaryService ro.Traefik.ServicePort) := by
  have hne := getDesiredRules_ne ingress (actionServiceOf ro) ro.CanaryService
    ro.Traefik.ServicePort hsvc
  simp only [desiredPatch, calculatePatch, CreateTwoWayMergePatch, overlay, zeroIngress]
  simp [Ne.symm hne]

/-! ## Rule injection -/

/-- C1: a rule with an HTTP section and exactly one path `p` to the action
service is returned, at its index, with its paths followed by one new path, `p`
with the canary service name and the numeric canary port and the same path
string; a rule without HTTP section, or without a path to the action service,
is returned unchanged at its index. -/
theorem getDesiredRules_single_match (current : Ingress) (actionService canaryService : String)
    (port : Int) (i : Nat) (rule : IngressRule) (hi : current.Rules[i]? = some rule) :
    (∀ http p, rule.HTTP = some http →
        http.Paths.filter (fun q => decide (q.Backend.ServiceName = actionService)) = [p] →
        (getDesiredRules current actionService canaryService port)[i]?
          = some { Host := rule.Host,
                   HTTP := some { Paths := http.Paths ++
                     [{ Path := p.Path,
                        Backend := { ServiceName := canaryService,
                                     ServicePort := { Type_ := IntstrType.Int, IntVal := port,
                                                      StrVal := "" } } }] } })
    ∧ (rule.HTTP = none →
        (getDesiredRules current actionService canaryService port)[i]? = some rule)
    ∧ (∀ http, rule.HTTP = some http →
        (∀ q ∈ http.Paths, q.Backend.ServiceName ≠ actionService) →
        (getDesiredRules current actionService canaryService port)[i]? = some rule) := by
  rw [getDesiredRules_eq_map, List.getElem?_map, hi]
  refine ⟨?_, ?_, ?_⟩
  · intro http p hh hf
    have hl : lastMatch actionService http.Paths = some p := by
      rw [lastMatch_eq_getLast?, hf]
      rfl
    simp [desiredRule, hh, hl, canaryOf, FromInt]
  · intro hh
    simp [desiredRule, hh]
  · intro http hh hq
    simp [desiredRule, hh, lastMatch_eq_none actionService http.Paths hq]

/-- The worked example of C1: rule `[{stable,443}]` plus rule `[{other,80}]`. -/
theorem getDesiredRules_single_match_witness :
    (ingressOf [ruleOf [pathTo "stable" 443], ruleOf [pathTo "other" 80]]).Rules[0]?
        = some (ruleOf [pathTo "stable" 443])
    ∧ (getDesiredRules (ingressOf [ruleOf [pathTo "stable" 443], ruleOf [pathTo "other" 80]])
        "stable" "canary" 443)[0]?
        = some (ruleOf [pathTo "stable" 443, pathTo "canary" 443])
    ∧ (getDesiredRules (ingressOf [ruleOf [pathTo "stable" 443], ruleOf [pathTo "other" 80]])
        "stable" "canary" 443)[1]?
        = some (ruleOf [pathTo "other" 80]) :=
  ⟨rfl,
   (getDesiredRules_single_match
      (ingressOf [ruleOf [pathTo "stable" 443], ruleOf [pathTo "other" 80]])
      "stable" "canary" 443 0 (ruleOf [pathTo "stable" 443]) rfl).1
      { Paths := [pathTo "stable" 443] } (pathTo "stable" 443) rfl (by decide),
   (getDesiredRules_single_match
      (ingressOf [ruleOf [pathTo "stable" 443], ruleOf [pathTo "other" 80]])
      "stable" "canary" 443 1 (ruleOf [pathTo "other" 80]) rfl).2.2
      { Paths := [pathTo "other" 80] } rfl (by decide)⟩

/-! ## The weights annotation value -/

/-- C2: the value `getServiceWeightsString` builds does not end at the percent
sign. For every service name and weight it is the bar, a newline, the name,
`: `, the decimal weight and then `%!(NOVERB)`, the text Go prints for the
verbless `%` that ends the format; for `canary-svc` and 37 the content line is
`canary-svc: 37%!(NOVERB)`, not `canary-svc: 37%`. -/
theorem getServiceWeightsString_noverb :
    (∀ (s : String) (w : Int), getServiceWeightsString s w
      = String.mk ("|\n".data ++ s.data ++ ": ".data ++ fmtInteger w ++ "%!(NOVERB)".data))
    ∧ getServiceWeightsString "canary-svc" 37 = "|\ncanary-svc: 37%!(NOVERB)"
    ∧ getServiceWeightsString "canary-svc" 37 ≠ "|\ncanary-svc: 37%" := by
  refine ⟨?_, by decide, by decide⟩
  intro s w
  simp [getServiceWeightsString, Sprintf, doPrintf, printArg, extraArgs]

/-! ## Re-running reconciliation -/

/-- C3: reconciliation is not idempotent in the code. On the resource routing
to `stable-svc` only, `Reconcile 10` writes one patch; once the store has applied
it, a second `Reconcile 10` finds the resource modified again and writes another
patch, whose rules hold the canary path twice. -/
theorem reconcile_twice_writes_twice :
    ∃ run1 run2 data,
      (storeReconciler sampleUtil (fakeRollout "stable-svc" "canary-svc" "ingress" 443)
          [stableOnly]).Reconcile 10 = Except.ok run1
      ∧ run1.patchWrites.length = 1
      ∧ run1.err = none
      ∧ (storeReconciler sampleUtil (fakeRollout "stable-svc" "canary-svc" "ingress" 443)
          (applyWrites [stableOnly] run1.actions)).Reconcile 10 = Except.ok run2
      ∧ run2.patchWrites
          = [Action.Patch "default" "ingress" PatchType.MergePatchType data]
      ∧ data.Rules = some [ruleOf [pathTo "stable-svc" 443, pathTo "canary-svc" 443,
                                    pathTo "canary-svc" 443]] :=
  ⟨_, _, _, rfl, rfl, rfl, rfl, rfl, rfl⟩

/-- C4: on the input of `TestNoChanges` (one rule, one path to `stable-svc:443`,
the weights annotation already equal to `getServiceWeightsString "canary-svc" 10`)
`Reconcile 10` does not stay idle: whatever the client answers it records the
event and writes one patch, and against the empty fake client of the test it
returns the wrapped NotFound error of that write. -/
theorem reconcile_noChanges_input_patches :
    (∀ client : Client,
      (Reconciler.Reconcile
        { cfg := { Rollout := fakeRollout "stable-svc" "canary-svc" "ingress" 443,
                   Client := client, IngressLister := indexerLister [noChangesIngress],
                   ingressutil := sampleUtil } } 10).toOption.map
        (fun run => (run.actions.length, run.patchWrites.length)) = some (2, 1))
    ∧ (Reconciler.Reconcile
        { cfg := { Rollout := fakeRollout "stable-svc" "canary-svc" "ingress" 443,
                   Client := emptyClient, IngressLister := indexerLister [noChangesIngress],
                   ingressutil := sampleUtil } } 10).toOption.map (fun run => run.err)
        = some (some (GoError.errorString
            "error patching traefik ingress `ingress`: ingresses.extensions \"ingress\" not found"))
    ∧ noChangesIngress.Annotations
        = some [(sampleUtil.TraefikServiceWeightsKey (fakeRollout "stable-svc" "canary-svc" "ingress" 443),
                 getServiceWeightsString "canary-svc" 10)] := by
  refine ⟨?_, rfl, rfl⟩
  intro client
  rw [Reconcile_routed
    { cfg := { Rollout := fakeRollout "stable-svc" "canary-svc" "ingress" 443,
               Client := client, IngressLister := indexerLister [noChangesIngress],
               ingressutil := sampleUtil } } 10 noChangesIngress
    [("traefik.ingress.kubernetes.io/service-weights", getServiceWeightsString "canary-svc" 10)]
    rfl rfl rfl]
  rfl

/-! ## Failure exits -/

theorem HasRuleWithService_eq_false (ingress : Ingress) (svc : String)
    (h : ∀ rule ∈ ingress.Rules, ∀ http, rule.HTTP = some http →
      ∀ p ∈ http.Paths, p.Backend.ServiceName ≠ svc) :
    HasRuleWithService ingress svc = false := by
  simp only [HasRuleWithService, List.any_eq_false]
  intro rule hmem
  cases hh : rule.HTTP with
  | none => simp
  | some http =>
    simp only [Bool.not_eq_true, List.any_eq_false, decide_eq_true_eq]
    exact fun p hp => h rule hmem http hh p hp

theorem Sprintf_missing_service (svc : String) :
    Sprintf "ingress does not have service `%s` in rules" [FmtArg.string svc]
      = "ingress does not have service `" ++ svc ++ "` in rules" := by
  apply String.ext
  simp [Sprintf, doPrintf, printArg, extraArgs]

/-- C5: the action service is the Traefik `RootService` when that is non-empty
and the `StableService` otherwise; when the resource read has no rule path whose
backend service name is that action service, `Reconcile` takes no action and
returns the error "ingress does not have service `<actionService>` in rules". -/
theorem Reconcile_service_missing (r : Reconciler) (w : Int) (ingress : Ingress)
    (actionService : String)
    (hact : actionService = if r.cfg.Rollout.Traefik.RootService ≠ ""
      then r.cfg.Rollout.Traefik.RootService else r.cfg.Rollout.StableService)
    (hget : r.cfg.IngressLister r.cfg.Rollout.Namespace r.cfg.Rollout.Traefik.Ingress
      = Except.ok ingress)
    (hno : ∀ rule ∈ ingress.Rules, ∀ http, rule.HTTP = some http →
      ∀ p ∈ http.Paths, p.Backend.ServiceName ≠ actionService) :
    r.Reconcile w = Except.ok
      { actions := [],
        err := some (GoError.errorString
          ("ingress does not have service `" ++ actionService ++ "` in rules")) } := by
  have hsvc := HasRuleWithService_eq_false ingress actionService hno
  subst hact
  simp only [Reconciler.Reconcile, hget, hsvc, Errorf, Sprintf_missing_service]
  rfl

/-- The input of `TestServiceNotFoundInIngress`: `RootService` is `invalid-svc`
and the ingress routes to `stable-service` only. -/
theorem Reconcile_service_missing_witness :
    Reconciler.Reconcile
      { cfg := { Rollout := { fakeRollout "stable-service" "canary-service" "ingress" 443 with
                              Traefik := { Ingress := "ingress", ServicePort := 443,
                                           RootService := "invalid-svc" } },
                 Client := emptyClient,
                 IngressLister := indexerLister
                   [ingress "traefik.ingress.kubernetes.io/service-weights" "ingress"
                     "stable-service" "canary-svc" 443 50],
                 ingressutil := sampleUtil } } 10
      = Except.ok
        { actions := [],
          err := some (GoError.errorString
            ("ingress does not have service `" ++ "invalid-svc" ++ "` in rules")) } :=
  Reconcile_service_missing _ 10
    (ingress "traefik.ingress.kubernetes.io/service-weights" "ingress"
      "stable-service" "canary-svc" 443 50)
    "invalid-svc" rfl rfl (by decide)

/-- C6: when the lister answers the read of the rollout's namespace and
ingress name with a NotFound error, `Reconcile` returns that very error, on
which `IsNotFound` holds, and takes no action, whatever the weight. -/
theorem Reconcile_not_found (r : Reconciler) (w : Int) (e : GoError)
    (hget : r.cfg.IngressLister r.cfg.Rollout.Namespace r.cfg.Rollout.Traefik.Ingress
      = Except.error e)
    (hnf : IsNotFound e = true) :
    ∃ run, r.Reconcile w = Except.ok run ∧ run.err = some e ∧ run.actions = []
      ∧ run.patchWrites = [] ∧ run.err.map IsNotFound = some true := by
  refine ⟨{ actions := [], err := some e }, ?_, rfl, rfl, rfl, ?_⟩
  · simp only [Reconciler.Reconcile, hget]
  · simp [hnf]

/-- The input of `TestIngressNotFound`: a lister over an indexer without resources. -/
theorem Reconcile_not_found_witness :
    ∃ run, Reconciler.Reconcile
        { cfg := { Rollout := fakeRollout "stable-service" "canary-service" "stable-ingress" 443,
                   Client := emptyClient, IngressLister := indexerLister [],
                   ingressutil := sampleUtil } } 10 = Except.ok run
      ∧ run.err = some (NewNotFound "ingress.extensions" "stable-ingress")
      ∧ run.actions = [] ∧ run.patchWrites = [] ∧ run.err.map IsNotFound = some true :=
  Reconcile_not_found
    { cfg := { Rollout := fakeRollout "stable-service" "canary-service" "stable-ingress" 443,
               Client := emptyClient, IngressLister := indexerLister [],
               ingressutil := sampleUtil } } 10
    (NewNotFound "ingress.extensions" "stable-ingress") rfl rfl

/-- The generated lister answers NotFound when the indexer holds no resource
with the namespace and the name. -/
theorem indexerLister_absent (indexer : List Ingress) (ns name : String)
    (h : ∀ i ∈ indexer, ¬(i.Namespace = ns ∧ i.Name = name)) :
    indexerLister indexer ns name = Except.error (NewNotFound "ingress.extensions" name) := by
  have hf : indexer.find? (fun i => decide (i.Namespace = ns ∧ i.Name = name)) = none := by
    rw [List.find?_eq_none]
    intro i hi
    simpa using h i hi
  simp only [indexerLister, hf]

/-! ## Several paths to the action service, and re-entry -/

/-- C7: a rule with two paths to the action service does not get two canary
paths. For the paths `/a` and `/b`, both to `stable:80`, the desired rule is
`/a`, `/b` and the canary copy of `/b` alone: three paths, not the four the
claim describes, and no canary copy of `/a`. -/
theorem getDesiredRules_two_matches :
    getDesiredRules (ingressOf [ruleOf [pathAt "/a" "stable" 80, pathAt "/b" "stable" 80]])
        "stable" "canary" 8080
      = [ruleOf [pathAt "/a" "stable" 80, pathAt "/b" "stable" 80, pathAt "/b" "canary" 8080]]
    ∧ getDesiredRules (ingressOf [ruleOf [pathAt "/a" "stable" 80, pathAt "/b" "stable" 80]])
        "stable" "canary" 8080
      ≠ [ruleOf [pathAt "/a" "stable" 80, pathAt "/b" "stable" 80,
                 pathAt "/a" "canary" 8080, pathAt "/b" "canary" 8080]] := by
  decide

/-- C8: a rule that already holds the path to the action service and its canary
path gets the canary path a second time: from `stable:443`, `canary:443` the
desired rule is `stable:443`, `canary:443`, `canary:443`, with two paths to
`canary:443`. -/
theorem getDesiredRules_appends_again :
    getDesiredRules (ingressOf [ruleOf [pathTo "stable" 443, pathTo "canary" 443]])
        "stable" "canary" 443
      = [ruleOf [pathTo "stable" 443, pathTo "canary" 443, pathTo "canary" 443]]
    ∧ (getDesiredRules (ingressOf [ruleOf [pathTo "stable" 443, pathTo "canary" 443]])
        "stable" "canary" 443).map (fun rule => (pathsTo "canary" 443 rule).length) = [2] := by
  decide

/-! ## Frame properties -/

theorem GoMap.get_set_self (m : GoMap) (k v : String) : (m.set k v).get k = some v := by
  induction m with
  | nil => simp [GoMap.set, GoMap.get]
  | cons kv rest ih =>
    obtain ⟨k', v'⟩ := kv
    by_cases hk : k' = k
    · simp [GoMap.set, GoMap.get, hk]
    · simp [GoMap.set, GoMap.get, hk, ih]

theorem GoMap.get_set_of_ne (m : GoMap) (k v k2 : String) (h : k2 ≠ k) :
    (m.set k v).get k2 = m.get k2 := by
  induction m with
  | nil => simp [GoMap.set, GoMap.get, Ne.symm h]
  | cons kv rest ih =>
    obtain ⟨k', v'⟩ := kv
    by_cases hk : k' = k
    · subst hk
      simp [GoMap.set, GoMap.get, Ne.symm h]
    · by_cases hk2 : k' = k2
      · subst hk2
        simp [GoMap.set, GoMap.get, hk]
      · simp [GoMap.set, GoMap.get, hk, hk2, ih]

theorem GoMap.key_of_mem_set (m : GoMap) (k v : String) (kv : String × String)
    (h : kv ∈ m.set k v) : kv.1 = k ∨ kv.1 ∈ m.map Prod.fst := by
  induction m with
  | nil =>
    simp only [GoMap.set, List.mem_singleton] at h
    exact Or.inl (by rw [h])
  | cons e rest ih =>
    obtain ⟨k', v'⟩ := e
    by_cases hk : k' = k
    · simp only [GoMap.set, hk, if_true, List.mem_cons] at h
      rcases h with h | h
      · exact Or.inl (by rw [h])
      · exact Or.inr (by simp only [List.map_cons, List.mem_cons]; exact Or.inr (List.mem_map_of_mem _ h))
    · simp only [GoMap.set, hk, if_false, List.mem_cons] at h
      rcases h with h | h
      · exact Or.inr (by simp [h])
      · rcases ih h with h2 | h2
        · exact Or.inl h2
        · exact Or.inr (by simp only [List.map_cons, List.mem_cons]; exact Or.inr h2)

theorem readMap_append (mem ext : Mem) (ref : MapRef)
    (h : ∀ a, ref = some a → a < mem.length) :
    readMap (mem ++ ext) ref = readMap mem ref := by
  cases ref with
  | none => rfl
  | some a =>
    simp only [readMap]
    exact List.getElem?_append_left (h a rfl)

theorem lt_of_readMap (mem : Mem) (a : Nat) (m : GoMap) (h : readMap mem (some a) = some m) :
    a < mem.length := by
  simp only [readMap] at h
  by_contra hge
  rw [List.getElem?_eq_none (by omega)] at h
  cases h

/-- The state after copying a map field extends the state before it. -/
theorem copyMap_extends (mem : Mem) (ref : MapRef) :
    ∃ ext, (copyMap mem ref).2 = mem ++ ext := by
  unfold copyMap
  cases readMap mem ref with
  | none => exact ⟨[], by simp⟩
  | some m => exact ⟨[m], rfl⟩

theorem copyMap_of_read (mem : Mem) (ref : MapRef) (m : GoMap)
    (h : readMap mem ref = some m) : copyMap mem ref = (some mem.length, mem ++ [m]) := by
  simp only [copyMap, h]

/-- C9: for a resource in memory whose annotation map is `A`,
`getDesiredAnnotations` returns a map variable whose map `D` holds
`getServiceWeightsString canaryService w` under the service-weights key, reads
as `A` under every other key, and has no key other than that key and the keys of
`A`; after the call the annotation map of the current resource is still `A`, and
the resource as a whole has the value it had. `D` is also the map the function
on values returns. -/
theorem getDesiredAnnotations_frame (u : IngressUtil) (mem : Mem) (current : IngressPtr)
    (ro : Rollout) (w : Int) (A : GoMap)
    (hA : readMap mem current.Annotations = some A)
    (hL : ∀ a, current.Labels = some a → a < mem.length) :
    ∃ ref mem' D, getDesiredAnnotationsMem u mem current ro w = Except.ok (ref, mem')
      ∧ readMap mem' ref = some D
      ∧ getDesiredAnnotations u (current.load mem) ro w = Except.ok (some D)
      ∧ D.get (u.TraefikServiceWeightsKey ro) = some (getServiceWeightsString ro.CanaryService w)
      ∧ (∀ k, k ≠ u.TraefikServiceWeightsKey ro → D.get k = A.get k)
      ∧ (∀ kv ∈ D, kv.1 = u.TraefikServiceWeightsKey ro ∨ kv.1 ∈ A.map Prod.fst)
      ∧ readMap mem' current.Annotations = some A
      ∧ current.load mem' = current.load mem := by
  obtain ⟨ext, hext⟩ := copyMap_extends mem current.Labels
  cases hann : current.Annotations with
  | none => rw [hann] at hA; cases hA
  | some a =>
    rw [hann] at hA
    have ha : a < mem.length := lt_of_readMap mem a A hA
    have hA1 : readMap (mem ++ ext) (some a) = some A := by
      rw [readMap_append mem ext (some a) (fun b hb => by cases hb; exact ha)]
      exact hA
    have hnew : (mem ++ ext ++ [A])[(mem ++ ext).length]? = some A := by
      rw [List.getElem?_append_right (Nat.le_refl _)]
      simp
    have hrun : getDesiredAnnotationsMem u mem current ro w
        = Except.ok (some (mem ++ ext).length,
            (mem ++ ext ++ [A]).set (mem ++ ext).length
              (A.set (u.TraefikServiceWeightsKey ro)
                (getServiceWeightsString ro.CanaryService w))) := by
      simp only [getDesiredAnnotationsMem, IngressPtr.DeepCopy, hann]
      rw [hext, copyMap_of_read _ _ _ hA1]
      simp only [assignMap, hnew]
    have hold : ∀ b, b < mem.length →
        ((mem ++ ext ++ [A]).set (mem ++ ext).length
          (A.set (u.TraefikServiceWeightsKey ro)
            (getServiceWeightsString ro.CanaryService w)))[b]? = mem[b]? := by
      intro b hb
      have hne : (mem ++ ext).length ≠ b := by
        simp only [List.length_append]
        omega
      rw [List.getElem?_set_ne hne, List.append_assoc, List.getElem?_append_left hb]
    refine ⟨_, _, A.set (u.TraefikServiceWeightsKey ro)
      (getServiceWeightsString ro.CanaryService w), hrun, ?_, ?_,
      GoMap.get_set_self _ _ _, fun k hk => GoMap.get_set_of_ne _ _ _ k hk,
      fun kv hkv => GoMap.key_of_mem_set _ _ _ kv hkv, ?_, ?_⟩
    · simp only [readMap]
      rw [List.getElem?_set_self (by simp)]
    · simp only [getDesiredAnnotations, Ingress.DeepCopy, IngressPtr.load, hann, hA]
    · simp only [readMap]
      rw [hold a ha]
      exact hA
    · have hlab : readMap ((mem ++ ext ++ [A]).set (mem ++ ext).length
          (A.set (u.TraefikServiceWeightsKey ro)
            (getServiceWeightsString ro.CanaryService w))) current.Labels
          = readMap mem current.Labels := by
        cases hl : current.Labels with
        | none => rfl
        | some l =>
          simp only [readMap]
          exact hold l (hL l hl)
      have hannr : readMap ((mem ++ ext ++ [A]).set (mem ++ ext).length
          (A.set (u.TraefikServiceWeightsKey ro)
            (getServiceWeightsString ro.CanaryService w))) (some a)
          = readMap mem (some a) := by
        simp only [readMap]
        exact hold a ha
      simp only [IngressPtr.load, hlab, hann, hannr]

/-- The worked example of C9: `canary-svc` at weight 37 over a resource whose
annotation map, at address 0, holds an unrelated key and an older weights value. -/
theorem getDesiredAnnotations_frame_witness :
    ∃ ref mem' D, getDesiredAnnotationsMem sampleUtil
        [[("kubernetes.io/ingress.class", "traefik"),
          ("traefik.ingress.kubernetes.io/service-weights", "old")]]
        { Name := "ingress", Namespace := "default", ResourceVersion := "", Labels := none,
          Annotations := some 0, Backend := none, TLS := [],
          Rules := [ruleOf [pathTo "stable-svc" 443]], LoadBalancer := [] }
        (fakeRollout "stable-svc" "canary-svc" "ingress" 443) 37 = Except.ok (ref, mem')
      ∧ readMap mem' ref = some D
      ∧ getDesiredAnnotations sampleUtil
          (IngressPtr.load
            { Name := "ingress", Namespace := "default", ResourceVersion := "", Labels := none,
              Annotations := some 0, Backend := none, TLS := [],
              Rules := [ruleOf [pathTo "stable-svc" 443]], LoadBalancer := [] }
            [[("kubernetes.io/ingress.class", "traefik"),
              ("traefik.ingress.kubernetes.io/service-weights", "old")]])
          (fakeRollout "stable-svc" "canary-svc" "ingress" 443) 37 = Except.ok (some D)
      ∧ D.get "traefik.ingress.kubernetes.io/service-weights"
          = some (getServiceWeightsString "canary-svc" 37)
      ∧ (∀ k, k ≠ "traefik.ingress.kubernetes.io/service-weights" → D.get k
          = GoMap.get [("kubernetes.io/ingress.class", "traefik"),
              ("traefik.ingress.kubernetes.io/service-weights", "old")] k)
      ∧ (∀ kv ∈ D, kv.1 = "traefik.ingress.kubernetes.io/service-weights"
          ∨ kv.1 ∈ List.map Prod.fst [("kubernetes.io/ingress.class", "traefik"),
              ("traefik.ingress.kubernetes.io/service-weights", "old")])
      ∧ readMap mem' (some 0) = some [("kubernetes.io/ingress.class", "traefik"),
              ("traefik.ingress.kubernetes.io/service-weights", "old")]
      ∧ IngressPtr.load
          { Name := "ingress", Namespace := "default", ResourceVersion := "", Labels := none,
            Annotations := some 0, Backend := none, TLS := [],
            Rules := [ruleOf [pathTo "stable-svc" 443]], LoadBalancer := [] } mem'
        = IngressPtr.load
          { Name := "ingress", Namespace := "default", ResourceVersion := "", Labels := none,
            Annotations := some 0, Backend := none, TLS := [],
            Rules := [ruleOf [pathTo "stable-svc" 443]], LoadBalancer := [] }
          [[("kubernetes.io/ingress.class", "traefik"),
            ("traefik.ingress.kubernetes.io/service-weights", "old")]] :=
  getDesiredAnnotations_frame sampleUtil
    [[("kubernetes.io/ingress.class", "traefik"),
      ("traefik.ingress.kubernetes.io/service-weights", "old")]]
    { Name := "ingress", Namespace := "default", ResourceVersion := "", Labels := none,
      Annotations := some 0, Backend := none, TLS := [],
      Rules := [ruleOf [pathTo "stable-svc" 443]], LoadBalancer := [] }
    (fakeRollout "stable-svc" "canary-svc" "ingress" 443) 37 _ rfl
    (fun a h => by cases h)

theorem ruleExtends_desiredRule (a c : String) (port : Int) (rule : IngressRule) :
    ruleExtends rule (desiredRule a c port rule) := by
  unfold ruleExtends desiredRule
  cases hh : rule.HTTP with
  | none => simp [hh]
  | some http =>
    cases hl : lastMatch a http.Paths with
    | none => simp [hh, hl]
    | some p => simp [hl]

/-- C10: `getDesiredRules` returns as many rules as the resource has, in the
same order, and each returned rule extends the rule in its place: same host,
HTTP section present in both or in neither, and the original paths, unaltered
and in order, at the start of the desired paths. -/
theorem getDesiredRules_extends (current : Ingress) (actionService canaryService : String)
    (port : Int) :
    (getDesiredRules current actionService canaryService port).length = current.Rules.length
    ∧ List.Forall₂ ruleExtends current.Rules
        (getDesiredRules current actionService canaryService port) := by
  rw [getDesiredRules_eq_map]
  refine ⟨List.length_map _ _, ?_⟩
  rw [List.forall₂_map_right_iff, List.forall₂_same]
  exact fun rule _ => ruleExtends_desiredRule actionService canaryService port rule

/-! ## The apply stage -/

/-- C11: a call of `Reconcile` that passes both checks need not end in one of
the two outcomes of the claim. The lister returns the resource without
annotations, the action service `stable-svc` is in its rules, and the call
panics in `getDesiredAnnotations`: there is no run, so neither a return without
a write nor a patch write followed by a return. -/
theorem Reconcile_checks_pass_then_panics :
    indexerLister [noAnnotations] "default" "ingress" = Except.ok noAnnotations
    ∧ HasRuleWithService noAnnotations
        (actionServiceOf (fakeRollout "stable-svc" "canary-svc" "ingress" 443)) = true
    ∧ (∀ client : Client,
        Reconciler.Reconcile
          { cfg := { Rollout := fakeRollout "stable-svc" "canary-svc" "ingress" 443,
                     Client := client, IngressLister := indexerLister [noAnnotations],
                     ingressutil := sampleUtil } } 10
          = Except.error Panic.assignmentToEntryInNilMap)
    ∧ (∀ (client : Client) (run : Run),
        Reconciler.Reconcile
          { cfg := { Rollout := fakeRollout "stable-svc" "canary-svc" "ingress" 443,
                     Client := client, IngressLister := indexerLister [noAnnotations],
                     ingressutil := sampleUtil } } 10
          ≠ Except.ok run) :=
  ⟨rfl, rfl, fun _ => rfl, fun _ _ h => by cases h⟩

theorem Sprintf_patch_error (name msg : String) :
    Sprintf "error patching traefik ingress `%s`: %v" [FmtArg.string name, FmtArg.string msg]
      = "error patching traefik ingress `" ++ name ++ "`: " ++ msg := by
  apply String.ext
  simp [Sprintf, doPrintf, printArg, extraArgs]

/-- C12: when the client answers the patch write with the error `e`, `Reconcile`
returns the error whose text is "error patching traefik ingress `<ingressName>`: "
followed by the text of `e`, and its trace holds that one write and no other. -/
theorem Reconcile_patch_error (r : Reconciler) (w : Int) (ingress : Ingress) (A : GoMap)
    (e : GoError)
    (hget : r.cfg.IngressLister r.cfg.Rollout.Namespace r.cfg.Rollout.Traefik.Ingress
      = Except.ok ingress)
    (hsvc : HasRuleWithService ingress (actionServiceOf r.cfg.Rollout) = true)
    (hann : ingress.Annotations = some A)
    (hfail : r.cfg.Client ingress.Namespace ingress.Name PatchType.MergePatchType
      (desiredPatch r.cfg.ingressutil r.cfg.Rollout ingress A w) = some e) :
    ∃ run, r.Reconcile w = Except.ok run
      ∧ run.err = some (GoError.errorString
          ("error patching traefik ingress `" ++ r.cfg.Rollout.Traefik.Ingress ++ "`: "
            ++ e.Error))
      ∧ run.patchWrites = [Action.Patch ingress.Namespace ingress.Name PatchType.MergePatchType
          (desiredPatch r.cfg.ingressutil r.cfg.Rollout ingress A w)] := by
  refine ⟨_, Reconcile_routed r w ingress A hget hsvc hann, ?_, rfl⟩
  simp only [hfail, Option.map_some', Errorf, Sprintf_patch_error]

/-- The input of `TestNoChanges` for C12: the fake client holds no resource and
answers the write with NotFound. -/
theorem Reconcile_patch_error_witness :
    ∃ run, Reconciler.Reconcile
        { cfg := { Rollout := fakeRollout "stable-svc" "canary-svc" "ingress" 443,
                   Client := emptyClient, IngressLister := indexerLister [noChangesIngress],
                   ingressutil := sampleUtil } } 10 = Except.ok run
      ∧ run.err = some (GoError.errorString
          ("error patching traefik ingress `" ++ "ingress" ++ "`: "
            ++ (NewNotFound "ingresses.extensions" "ingress").Error))
      ∧ run.patchWrites = [Action.Patch "default" "ingress" PatchType.MergePatchType
          (desiredPatch sampleUtil (fakeRollout "stable-svc" "canary-svc" "ingress" 443)
            noChangesIngress
            [("traefik.ingress.kubernetes.io/service-weights",
              getServiceWeightsString "canary-svc" 10)] 10)] :=
  Reconcile_patch_error
    { cfg := { Rollout := fakeRollout "stable-svc" "canary-svc" "ingress" 443,
               Client := emptyClient, IngressLister := indexerLister [noChangesIngress],
               ingressutil := sampleUtil } } 10 noChangesIngress
    [("traefik.ingress.kubernetes.io/service-weights", getServiceWeightsString "canary-svc" 10)]
    (NewNotFound "ingresses.extensions" "ingress") rfl rfl rfl rfl

/-! ## The diff -/

theorem GoMap.mem_of_get (m : GoMap) (k v : String) (h : m.get k = some v) : (k, v) ∈ m := by
  induction m with
  | nil => simp [GoMap.get] at h
  | cons e rest ih =>
    obtain ⟨k', v'⟩ := e
    by_cases hk : k' = k
    · simp only [GoMap.get, hk, if_true, Option.some.injEq] at h
      simp [hk, h]
    · simp only [GoMap.get, hk, if_false] at h
      exact List.mem_cons_of_mem _ (ih h)

theorem mapIncluded_iff (a b : GoMap) :
    mapIncluded a b = true ↔ ∀ kv ∈ a, b.get kv.1 = a.get kv.1 := by
  simp [mapIncluded, List.all_eq_true]

/-- The map comparison of the diff holds exactly when the two maps read the same
under every key. -/
theorem mapEqual_iff (a b : Option GoMap) :
    mapEqual a b = true ↔ ∀ k, (entries a).get k = (entries b).get k := by
  simp only [mapEqual, Bool.and_eq_true, mapIncluded_iff]
  constructor
  · rintro ⟨hab, hba⟩ k
    cases ha : (entries a).get k with
    | some v => exact (hab (k, v) (GoMap.mem_of_get _ k v ha)).symm ▸ ha.symm ▸ rfl
    | none =>
      cases hb : (entries b).get k with
      | none => rfl
      | some v =>
        have := hba (k, v) (GoMap.mem_of_get _ k v hb)
        simp only at this
        rw [ha, hb] at this
        exact this
  · intro h
    exact ⟨fun kv _ => (h kv.1).symm, fun kv _ => h kv.1⟩

theorem calculatePatch_eq (current : Ingress) (da : Option GoMap) (dr : List IngressRule) :
    calculatePatch current da dr
      = ({ emptyPatch with
           Annotations := overlay (mapEqual current.Annotations da) da
           Rules := overlay (decide (current.Rules = dr)) dr },
         decide (({ emptyPatch with
           Annotations := overlay (mapEqual current.Annotations da) da
           Rules := overlay (decide (current.Rules = dr)) dr } : MergePatch) ≠ emptyPatch)) := by
  simp [calculatePatch, CreateTwoWayMergePatch, zeroIngress, overlay, emptyPatch, mapEqual,
    mapIncluded, entries]

/-- C13: `calculatePatch` reports `changed = false` exactly when the desired
annotations read as the current annotations under every key (the order of the
entries plays no part) and the desired rules are the current rules as a
sequence; the same two rules in the other order count as changed. -/
theorem calculatePatch_changed_iff :
    (∀ (current : Ingress) (desiredAnnotations : Option GoMap) (desiredRules : List IngressRule),
      (calculatePatch current desiredAnnotations desiredRules).2 = false ↔
        ((∀ k, (entries desiredAnnotations).get k = (entries current.Annotations).get k)
          ∧ desiredRules = current.Rules))
    ∧ (calculatePatch
        { zeroIngress with Annotations := some [("a", "1"), ("b", "2")],
                           Rules := [ruleOf [pathTo "x" 80], ruleOf [pathTo "y" 80]] }
        (some [("b", "2"), ("a", "1")])
        [ruleOf [pathTo "x" 80], ruleOf [pathTo "y" 80]]).2 = false
    ∧ (calculatePatch
        { zeroIngress with Annotations := some [("a", "1"), ("b", "2")],
                           Rules := [ruleOf [pathTo "x" 80], ruleOf [pathTo "y" 80]] }
        (some [("a", "1"), ("b", "2")])
        [ruleOf [pathTo "y" 80], ruleOf [pathTo "x" 80]]).2 = true := by
  refine ⟨?_, by decide, by decide⟩
  intro current da dr
  rw [calculatePatch_eq]
  simp only [decide_eq_false_iff_not, ne_eq, not_not]
  constructor
  · intro h
    have hA := congrArg MergePatch.Annotations h
    have hR := congrArg MergePatch.Rules h
    simp only [emptyPatch, overlay] at hA hR
    refine ⟨?_, ?_⟩
    · have hm : mapEqual current.Annotations da = true := by
        by_contra hne
        simp [hne] at hA
      exact fun k => ((mapEqual_iff _ _).mp hm k).symm
    · by_contra hne
      have : ¬ current.Rules = dr := fun h2 => hne h2.symm
      simp [this] at hR
  · rintro ⟨hm, hr⟩
    have hm2 : mapEqual current.Annotations da = true :=
      (mapEqual_iff _ _).mpr fun k => (hm k).symm
    simp only [overlay, hm2, hr, decide_True, if_true]
    rfl

/-- C14: `calculatePatch` reads only the annotations and the rules of the
current resource: two current resources with the same annotations and the same
rules get the same patch and the same flag, and the patch names no field other
than the annotations and the rules. -/
theorem calculatePatch_frame (c1 c2 : Ingress) (desiredAnnotations : Option GoMap)
    (desiredRules : List IngressRule)
    (hA : c1.Annotations = c2.Annotations) (hR : c1.Rules = c2.Rules) :
    calculatePatch c1 desiredAnnotations desiredRules
        = calculatePatch c2 desiredAnnotations desiredRules
    ∧ (calculatePatch c1 desiredAnnotations desiredRules).1.Name = none
    ∧ (calculatePatch c1 desiredAnnotations desiredRules).1.Namespace = none
    ∧ (calculatePatch c1 desiredAnnotations desiredRules).1.ResourceVersion = none
    ∧ (calculatePatch c1 desiredAnnotations desiredRules).1.Labels = none
    ∧ (calculatePatch c1 desiredAnnotations desiredRules).1.Backend = none
    ∧ (calculatePatch c1 desiredAnnotations desiredRules).1.TLS = none
    ∧ (calculatePatch c1 desiredAnnotations desiredRules).1.LoadBalancer = none := by
  refine ⟨?_, ?_⟩
  · simp only [calculatePatch, hA, hR]
  · rw [calculatePatch_eq]
    simp [emptyPatch]

/-- Two resources for C14 that agree on annotations and rules and differ in
name, namespace, version, labels, default backend, TLS and status. -/
theorem calculatePatch_frame_witness :
    calculatePatch
        { Name := "one", Namespace := "default", ResourceVersion := "7", Labels := none,
          Annotations := some [("a", "1")], Backend := none, TLS := [],
          Rules := [ruleOf [pathTo "stable" 443]], LoadBalancer := [] }
        (some [("a", "2")]) [ruleOf [pathTo "stable" 443, pathTo "canary" 443]]
      = calculatePatch
        { Name := "two", Namespace := "prod", ResourceVersion := "9",
          Labels := some [("app", "web")], Annotations := some [("a", "1")],
          Backend := some { ServiceName := "fallback", ServicePort := FromInt 80 },
          TLS := [{ Hosts := ["example.com"], SecretName := "cert" }],
          Rules := [ruleOf [pathTo "stable" 443]], LoadBalancer := ["10.0.0.1"] }
        (some [("a", "2")]) [ruleOf [pathTo "stable" 443, pathTo "canary" 443]]
    ∧ (calculatePatch
        { Name := "one", Namespace := "default", ResourceVersion := "7", Labels := none,
          Annotations := some [("a", "1")], Backend := none, TLS := [],
          Rules := [ruleOf [pathTo "stable" 443]], LoadBalancer := [] }
        (some [("a", "2")]) [ruleOf [pathTo "stable" 443, pathTo "canary" 443]]).1.Name = none :=
  ⟨(calculatePatch_frame
      { Name := "one", Namespace := "default", ResourceVersion := "7", Labels := none,
        Annotations := some [("a", "1")], Backend := none, TLS := [],
        Rules := [ruleOf [pathTo "stable" 443]], LoadBalancer := [] }
      { Name := "two", Namespace := "prod", ResourceVersion := "9",
        Labels := some [("app", "web")], Annotations := some [("a", "1")],
        Backend := some { ServiceName := "fallback", ServicePort := FromInt 80 },
        TLS := [{ Hosts := ["example.com"], SecretName := "cert" }],
        Rules := [ruleOf [pathTo "stable" 443]], LoadBalancer := ["10.0.0.1"] }
      (some [("a", "2")]) [ruleOf [pathTo "stable" 443, pathTo "canary" 443]] rfl rfl).1,
   (calculatePatch_frame
      { Name := "one", Namespace := "default", ResourceVersion := "7", Labels := none,
        Annotations := some [("a", "1")], Backend := none, TLS := [],
        Rules := [ruleOf [pathTo "stable" 443]], LoadBalancer := [] }
      { Name := "two", Namespace := "prod", ResourceVersion := "9",
        Labels := some [("app", "web")], Annotations := some [("a", "1")],
        Backend := some { ServiceName := "fallback", ServicePort := FromInt 80 },
        TLS := [{ Hosts := ["example.com"], SecretName := "cert" }],
        Rules := [ruleOf [pathTo "stable" 443]], LoadBalancer := ["10.0.0.1"] }
      (some [("a", "2")]) [ruleOf [pathTo "stable" 443, pathTo "canary" 443]] rfl rfl).2.1⟩

/-! ## The event -/

/-- C15, as stated, fails: on the input of `TestNoChanges` with the empty fake
client the patch write fails, `Reconcile` returns an error, and the event has
been recorded all the same. -/
theorem Reconcile_event_on_failed_write :
    ∃ run, Reconciler.Reconcile
        { cfg := { Rollout := fakeRollout "stable-svc" "canary-svc" "ingress" 443,
                   Client := emptyClient, IngressLister := indexerLister [noChangesIngress],
                   ingressutil := sampleUtil } } 10 = Except.ok run
      ∧ run.err = some (GoError.errorString
          "error patching traefik ingress `ingress`: ingresses.extensions \"ingress\" not found")
      ∧ run.events = [Action.Event "Normal" "PatchingTraefikIngress"
          "Updating Ingress `ingress` to desiredWeight \x2710\x27"] :=
  ⟨_, rfl, rfl, rfl⟩

/-- C15, amended: a call of `Reconcile` records its event at most once, and
exactly when it attempts the patch write: the trace of a call is empty, or it is
the event followed by the one write, whatever the write returns. -/
theorem Reconcile_event_with_write (r : Reconciler) (w : Int) (run : Run)
    (h : r.Reconcile w = Except.ok run) :
    run.events.length ≤ 1
    ∧ (run.events.length = 1 ↔ run.patchWrites.length = 1)
    ∧ (run.actions = []
        ∨ ∃ ns name data, run.actions
            = [patchingEvent r.cfg.Rollout.Traefik.Ingress w,
               Action.Patch ns name PatchType.MergePatchType data]) := by
  have key : run.actions = []
      ∨ ∃ ns name data, run.actions
          = [patchingEvent r.cfg.Rollout.Traefik.Ingress w,
             Action.Patch ns name PatchType.MergePatchType data] := by
    cases hget : r.cfg.IngressLister r.cfg.Rollout.Namespace r.cfg.Rollout.Traefik.Ingress with
    | error e =>
      simp only [Reconciler.Reconcile, hget, Except.ok.injEq] at h
      exact Or.inl (by rw [← h])
    | ok ingress =>
      cases hsvc : HasRuleWithService ingress (actionServiceOf r.cfg.Rollout) with
      | false =>
        simp only [actionServiceOf] at hsvc
        simp only [Reconciler.Reconcile, hget, hsvc, Bool.not_false, if_true,
          Except.ok.injEq] at h
        exact Or.inl (by rw [← h])
      | true =>
        cases hann : ingress.Annotations with
        | none =>
          simp only [actionServiceOf] at hsvc
          simp only [Reconciler.Reconcile, hget, hsvc, getDesiredAnnotations, Ingress.DeepCopy,
            hann, Bool.not_true, Bool.false_eq_true, if_false] at h
          cases h
        | some A =>
          rw [Reconcile_routed r w ingress A hget hsvc hann, Except.ok.injEq] at h
          exact Or.inr ⟨_, _, _, by rw [← h]⟩
  refine ⟨?_, ?_, key⟩
  · rcases key with h0 | ⟨ns, name, data, h1⟩
    · simp [Run.events, h0]
    · simp [Run.events, h1, patchingEvent, Action.isEvent]
  · rcases key with h0 | ⟨ns, name, data, h1⟩
    · simp [Run.events, Run.patchWrites, h0]
    · simp [Run.events, Run.patchWrites, h1, patchingEvent, Action.isEvent, Action.isPatch]

/-- The end-to-end scenario for C15: the write is accepted, and the trace is the
event followed by the write. -/
theorem Reconcile_event_with_write_witness :
    ∃ run, (storeReconciler sampleUtil (fakeRollout "stable-svc" "canary-svc" "ingress" 443)
          [stableOnly]).Reconcile 10 = Except.ok run
      ∧ run.events.length ≤ 1
      ∧ (run.events.length = 1 ↔ run.patchWrites.length = 1)
      ∧ (run.actions = []
          ∨ ∃ ns name data, run.actions
              = [patchingEvent "ingress" 10,
                 Action.Patch ns name PatchType.MergePatchType data]) :=
  ⟨_, rfl,
    Reconcile_event_with_write
      (storeReconciler sampleUtil (fakeRollout "stable-svc" "canary-svc" "ingress" 443)
        [stableOnly]) 10 _ rfl⟩

/-! ## One canary path per rule -/

/-- C16: a rule with an HTTP section is returned, at its index, with its paths
followed by the canary copy of the last path to the action service, and by
nothing when no path goes to the action service: at most one path is added,
however many match. A rule without HTTP section is returned as it is. -/
theorem getDesiredRules_last_match (current : Ingress) (actionService canaryService : String)
    (port : Int) (i : Nat) (rule : IngressRule) (hi : current.Rules[i]? = some rule) :
    (∀ http, rule.HTTP = some http →
      (getDesiredRules current actionService canaryService port)[i]?
        = some { Host := rule.Host,
                 HTTP := some { Paths :=
                   match (http.Paths.filter
                     (fun q => decide (q.Backend.ServiceName = actionService))).getLast? with
                   | none => http.Paths
                   | some p => http.Paths ++
                     [{ Path := p.Path,
                        Backend := { ServiceName := canaryService,
                                     ServicePort := FromInt port } }] } })
    ∧ (rule.HTTP = none →
      (getDesiredRules current actionService canaryService port)[i]? = some rule) := by
  rw [getDesiredRules_eq_map, List.getElem?_map, hi]
  refine ⟨?_, ?_⟩
  · intro http hh
    have hl := lastMatch_eq_getLast? actionService http.Paths
    cases hg : (http.Paths.filter
        (fun q => decide (q.Backend.ServiceName = actionService))).getLast? with
    | none =>
      rw [hg] at hl
      simp only [Option.map_some', desiredRule, hh, hl, Option.some.injEq]
      cases rule
      simp_all
    | some p =>
      rw [hg] at hl
      simp [desiredRule, hh, hl, canaryOf]
  · intro hh
    simp [desiredRule, hh]

/-- The two-match example for C16: `/a` and `/b` both go to `stable:80`, and the
one added path is the canary copy of `/b`. -/
theorem getDesiredRules_last_match_witness :
    (getDesiredRules (ingressOf [ruleOf [pathAt "/a" "stable" 80, pathAt "/b" "stable" 80]])
        "stable" "canary" 8080)[0]?
      = some (ruleOf [pathAt "/a" "stable" 80, pathAt "/b" "stable" 80,
                      pathAt "/b" "canary" 8080]) :=
  (getDesiredRules_last_match
    (ingressOf [ruleOf [pathAt "/a" "stable" 80, pathAt "/b" "stable" 80]])
    "stable" "canary" 8080 0 (ruleOf [pathAt "/a" "stable" 80, pathAt "/b" "stable" 80]) rfl).1
    { Paths := [pathAt "/a" "stable" 80, pathAt "/b" "stable" 80] } rfl

/-! ## A resource without annotations -/

/-- C17: on a resource whose annotation map is nil, `getDesiredAnnotations` does
not return a map holding the service-weights key: the write to the nil map of
the copy panics, for every rollout and weight, and `Reconcile` on such a
resource panics with it. -/
theorem getDesiredAnnotations_nil_panics :
    (∀ (u : IngressUtil) (ro : Rollout) (w : Int),
      getDesiredAnnotations u noAnnotations ro w
        = Except.error Panic.assignmentToEntryInNilMap)
    ∧ noAnnotations.Annotations = none
    ∧ (storeReconciler sampleUtil (fakeRollout "stable-svc" "canary-svc" "ingress" 443)
        [noAnnotations]).Reconcile 10 = Except.error Panic.assignmentToEntryInNilMap :=
  ⟨fun _ _ _ => rfl, rfl, rfl⟩

/-! ## The annotation value determines the service and the weight -/

theorem digitChar_value (k : Nat) (hk : k < 10) : (Nat.digitChar k).toNat - 48 = k := by
  interval_cases k <;> rfl

theorem digitChar_ne_space (k : Nat) (hk : k < 10) : Nat.digitChar k ≠ ' ' := by
  interval_cases k <;> decide

theorem digitChar_ne_minus (k : Nat) (hk : k < 10) : Nat.digitChar k ≠ '-' := by
  interval_cases k <;> decide

theorem mem_toDigitsCore (fuel n : Nat) (ds : List Char) (c : Char)
    (h : c ∈ Nat.toDigitsCore 10 fuel n ds) : c ∈ ds ∨ ∃ k, k < 10 ∧ c = Nat.digitChar k := by
  induction fuel generalizing n ds with
  | zero => exact Or.inl (by simpa [Nat.toDigitsCore] using h)
  | succ fuel ih =>
    simp only [Nat.toDigitsCore] at h
    split at h
    · rcases List.mem_cons.mp h with h1 | h1
      · exact Or.inr ⟨n % 10, Nat.mod_lt _ (by decide), h1⟩
      · exact Or.inl h1
    · rcases ih _ _ h with h1 | h1
      · rcases List.mem_cons.mp h1 with h2 | h2
        · exact Or.inr ⟨n % 10, Nat.mod_lt _ (by decide), h2⟩
        · exact Or.inl h2
      · exact Or.inr h1

theorem mem_toDigits (n : Nat) (c : Char) (h : c ∈ Nat.toDigits 10 n) :
    ∃ k, k < 10 ∧ c = Nat.digitChar k := by
  rcases mem_toDigitsCore _ _ _ _ h with h1 | h1
  · cases h1
  · exact h1

theorem digitsValue_toDigitsCore (fuel n : Nat) (ds : List Char) (hf : n < fuel) :
    digitsValue 0 (Nat.toDigitsCore 10 fuel n ds) = digitsValue n ds := by
  induction fuel generalizing n ds with
  | zero => omega
  | succ fuel ih =>
    simp only [Nat.toDigitsCore]
    split
    · rename_i h0
      have hlt : n < 10 := by omega
      simp only [digitsValue, List.foldl_cons, Nat.zero_mul, Nat.zero_add]
      rw [digitChar_value _ (Nat.mod_lt _ (by decide)), Nat.mod_eq_of_lt hlt]
    · rename_i h0
      have hpos : 0 < n / 10 := Nat.pos_of_ne_zero h0
      have hlt : n / 10 < fuel := by omega
      rw [ih _ _ hlt]
      simp only [digitsValue, List.foldl_cons]
      rw [digitChar_value _ (Nat.mod_lt _ (by decide))]
      congr 1
      omega

/-- Reading back the decimal text of a natural number gives the number. -/
theorem digitsValue_toDigits (n : Nat) : digitsValue 0 (Nat.toDigits 10 n) = n := by
  have := digitsValue_toDigitsCore (n + 1) n [] (Nat.lt_succ_self n)
  simpa [Nat.toDigits, digitsValue] using this

theorem toDigits_injective (m n : Nat) (h : Nat.toDigits 10 m = Nat.toDigits 10 n) : m = n := by
  have := congrArg (digitsValue 0) h
  rwa [digitsValue_toDigits, digitsValue_toDigits] at this

theorem toDigits_ne_nil (n : Nat) : Nat.toDigits 10 n ≠ [] := by
  intro h
  have h1 := digitsValue_toDigits n
  have h2 := digitsValue_toDigits (n + 1)
  have h3 : Nat.toDigits 10 n ≠ Nat.toDigits 10 (n + 1) := fun he => by
    have := toDigits_injective _ _ he
    omega
  cases n with
  | zero => simp [Nat.toDigits, Nat.toDigitsCore] at h
  | succ k =>
    rw [h] at h1
    simp [digitsValue] at h1

theorem fmtInteger_no_space (w : Int) : ' ' ∉ fmtInteger w := by
  intro h
  cases w with
  | ofNat n =>
    obtain ⟨k, hk, hc⟩ := mem_toDigits n ' ' h
    exact digitChar_ne_space k hk hc.symm
  | negSucc n =>
    simp only [fmtInteger] at h
    rcases List.mem_cons.mp h with h1 | h1
    · exact absurd h1 (by decide)
    · obtain ⟨k, hk, hc⟩ := mem_toDigits _ ' ' h1
      exact digitChar_ne_space k hk hc.symm

theorem fmtInteger_injective (v w : Int) (h : fmtInteger v = fmtInteger w) : v = w := by
  cases v with
  | ofNat m =>
    cases w with
    | ofNat n =>
      simp only [fmtInteger] at h
      rw [toDigits_injective m n h]
    | negSucc n =>
      simp only [fmtInteger] at h
      have hm : '-' ∈ Nat.toDigits 10 m := by rw [h]; exact List.mem_cons_self _ _
      obtain ⟨k, hk, hc⟩ := mem_toDigits m '-' hm
      exact absurd hc.symm (digitChar_ne_minus k hk)
  | negSucc m =>
    cases w with
    | ofNat n =>
      simp only [fmtInteger] at h
      have hm : '-' ∈ Nat.toDigits 10 n := by rw [← h]; exact List.mem_cons_self _ _
      obtain ⟨k, hk, hc⟩ := mem_toDigits n '-' hm
      exact absurd hc.symm (digitChar_ne_minus k hk)
    | negSucc n =>
      simp only [fmtInteger, List.cons.injEq, true_and] at h
      have := toDigits_injective _ _ h
      have hmn : m = n := by omega
      rw [hmn]

/-- The text `getServiceWeightsString` builds, for every name and weight. -/
theorem getServiceWeightsString_form (s : String) (w : Int) :
    getServiceWeightsString s w
      = String.mk ("|\n".data ++ s.data ++ ": ".data ++ fmtInteger w ++ "%!(NOVERB)".data) := by
  simp [getServiceWeightsString, Sprintf, doPrintf, printArg, extraArgs]

/-- Two texts `l ++ ": " ++ d` are equal only when their parts are, provided the
parts after the separator hold no space. -/
theorem append_separator_inj (l1 l2 d1 d2 : List Char)
    (h1 : ' ' ∉ d1) (h2 : ' ' ∉ d2)
    (h : l1 ++ [':', ' '] ++ d1 = l2 ++ [':', ' '] ++ d2) : l1 = l2 ∧ d1 = d2 := by
  have key : ∀ (a b x y : List Char), ' ' ∉ x →
      a ++ [':', ' '] ++ x = b ++ [':', ' '] ++ y →
      (∃ t, b ++ [':', ' '] = a ++ [':', ' '] ++ t ∧ x = t ++ y) → a = b ∧ x = y := by
    intro a b x y hx _ ht
    obtain ⟨t, ht1, ht2⟩ := ht
    cases t.eq_nil_or_concat with
    | inl hnil =>
      subst hnil
      simp only [List.append_nil] at ht1
      exact ⟨(List.append_cancel_right ht1).symm, by simpa using ht2⟩
    | inr hcon =>
      obtain ⟨t', c, hc⟩ := hcon
      subst hc
      have hlast := congrArg List.getLast? ht1
      simp only [List.concat_eq_append] at hlast
      rw [← List.append_assoc, List.getLast?_append, List.getLast?_append] at hlast
      simp only [List.getLast?_singleton, List.getLast?_cons_cons, Option.or,
        Option.some.injEq] at hlast
      exfalso
      apply hx
      rw [ht2, hlast]
      simp
  rcases List.append_eq_append_iff.mp h with ⟨t, ht1, ht2⟩ | ⟨t, ht1, ht2⟩
  · exact key l1 l2 d1 d2 h1 h ⟨t, ht1, ht2⟩
  · have := key l2 l1 d2 d1 h2 h.symm ⟨t, ht1, ht2⟩
    exact ⟨this.1.symm, this.2.symm⟩

/-- C18: `getServiceWeightsString` is injective: equal values come from the same
service name and the same weight, for all service names (those holding `: ` or
digits included) and all integer weights. -/
theorem getServiceWeightsString_injective (s1 s2 : String) (w1 w2 : Int)
    (h : getServiceWeightsString s1 w1 = getServiceWeightsString s2 w2) :
    s1 = s2 ∧ w1 = w2 := by
  rw [getServiceWeightsString_form s1 w1, getServiceWeightsString_form s2 w2] at h
  have hd := congrArg String.data h
  simp only [List.append_assoc] at hd
  have hd2 := List.append_cancel_left hd
  rw [← List.append_assoc, ← List.append_assoc, ← List.append_assoc s2.data] at hd2
  rw [← List.append_assoc (s2.data ++ ": ".data)] at hd2
  have hd3 := List.append_cancel_right hd2
  obtain ⟨hs, hw⟩ := append_separator_inj s1.data s2.data (fmtInteger w1) (fmtInteger w2)
    (fmtInteger_no_space w1) (fmtInteger_no_space w2) hd3
  exact ⟨String.ext hs, fmtInteger_injective w1 w2 hw⟩

/-- A service name that itself holds `: ` and a digit, for C18. -/
theorem getServiceWeightsString_injective_witness :
    getServiceWeightsString "svc: 1" 23 = getServiceWeightsString "svc: 1" 23
    ∧ "svc: 1" = "svc: 1" ∧ (23 : Int) = 23 :=
  ⟨rfl, getServiceWeightsString_injective "svc: 1" "svc: 1" 23 23 rfl⟩

end Traefik
